import Mathlib

/-!
Formal model of the flags-gen repository's parser core: `pkg/types/types.go`
(type tables) and `pkg/parser/parser.go` (struct discovery, field extraction,
tag parsing, default-value typing, flag-name derivation and default-literal
rendering).  Go AST values are embedded as plain inductive data; Go strings are
Lean `String`s; `interface{}` default values become the `DefaultValue` sum;
fallible operations return `Except String`.  String helpers mirror the exact
Go library semantics used by the source (ASCII-ranged where the source relies
on `unicode` classification of ASCII identifiers).
-/

namespace FlagsGen

deriving instance DecidableEq for Except

/-- ASCII upper-case letter test, the `[A-Z]` character class of the source's
regular expressions. -/
def isUpperAZ (c : Char) : Bool :=
  65 ≤ c.toNat && c.toNat ≤ 90

/-- ASCII lower-case letter test, the `[a-z]` character class of the source's
regular expressions. -/
def isLowerAZ (c : Char) : Bool :=
  97 ≤ c.toNat && c.toNat ≤ 122

/-- ASCII cased lowering of one character, the action of `strings.ToLower`
on the ASCII identifiers this tool processes. -/
def toLowerGo (c : Char) : Char :=
  if isUpperAZ c then Char.ofNat (c.toNat + 32) else c

/-- Substring test over character lists: `strings.Contains`. -/
def containsSubstr (pat s : List Char) : Bool :=
  s.tails.any fun t => pat.isPrefixOf t

/-- Go `strings.TrimPrefix`: drop `pre` from the front of `s` when present. -/
def goTrimPfx (s pre : String) : String :=
  if pre.data.isPrefixOf s.data then String.mk (s.data.drop pre.data.length) else s

/-- Go `strings.TrimSuffix`: drop `suf` from the end of `s` when present. -/
def goTrimSuffix (s suf : String) : String :=
  if suf.data.isSuffixOf s.data then String.mk (s.data.take (s.data.length - suf.data.length))
  else s

/-- ASCII white-space test, the action of `unicode.IsSpace` on the ASCII
comment text this tool processes. -/
def goIsSpace (c : Char) : Bool :=
  c == ' ' || c == '\t' || c == '\n' || c == '\r' || c == '\x0b' || c == '\x0c'

/-- Go `strings.TrimSpace` on ASCII text. -/
def goTrimSpace (s : String) : String :=
  String.mk (((s.data.dropWhile goIsSpace).reverse.dropWhile goIsSpace).reverse)

/-- Go `strings.Trim(s, "\x60")`: strip backquotes from both ends of a raw
struct-tag literal. -/
def goTrimBackticks (s : String) : String :=
  String.mk (((s.data.dropWhile (· == '`')).reverse.dropWhile (· == '`')).reverse)

/-- Comma splitter underlying `strings.Split(value, ",")`: accumulates the
current piece (reversed) and cuts at every comma. -/
def splitCommaAux (acc : List Char) : List Char → List (List Char)
  | [] => [acc.reverse]
  | c :: cs => if c = ',' then acc.reverse :: splitCommaAux [] cs else splitCommaAux (c :: acc) cs

/-- Go `strings.Split(s, ",")`. -/
def splitCommaS (s : String) : List String :=
  (splitCommaAux [] s.data).map fun l => String.mk l

/-- Joins pieces with a comma between consecutive ones; the left inverse of
`splitCommaAux` used to state that comma splitting preserves content. -/
def joinComma : List (List Char) → List Char
  | [] => []
  | [l] => l
  | l :: ls => l ++ ',' :: joinComma ls

/-- Go `strconv.Atoi`: optional sign, one or more decimal digits, value
within the 64-bit signed range; `none` is Go's non-nil error. -/
def goAtoi (s : String) : Option Int :=
  let signDigits : Int × List Char :=
    match s.data with
    | '+' :: rest => (1, rest)
    | '-' :: rest => (-1, rest)
    | cs => (1, cs)
  let sign := signDigits.1
  let digits := signDigits.2
  if digits = [] then none
  else if digits.all (fun c => 48 ≤ c.toNat && c.toNat ≤ 57) then
    let v : Nat := digits.foldl (fun a c => a * 10 + (c.toNat - 48)) 0
    let i : Int := sign * v
    if -(2 ^ 63) ≤ i ∧ i ≤ 2 ^ 63 - 1 then some i else none
  else none

/-- Go `strconv.ParseBool`: the twelve accepted spellings; `none` is Go's
non-nil error. -/
def goParseBool (s : String) : Option Bool :=
  if s = "1" ∨ s = "t" ∨ s = "T" ∨ s = "TRUE" ∨ s = "true" ∨ s = "True" then some true
  else if s = "0" ∨ s = "f" ∨ s = "F" ∨ s = "FALSE" ∨ s = "false" ∨ s = "False" then some false
  else none

/-- Shallow embedding of the `ast.Expr` shapes `parseType` distinguishes:
plain identifiers, qualified (selector) names, slice types, and everything
else (`*ast.StarExpr`, `*ast.MapType`, `*ast.FuncType`, `*ast.StructType`,
...), the latter carrying the `%T` description the source would print. -/
inductive TypeExpr where
  | ident (name : String)
  | selector (x : TypeExpr) (sel : String)
  | array (elt : TypeExpr)
  | other (desc : String)
deriving DecidableEq, Repr

/-- Source `parseType`: renders a type expression to its normalized string,
failing on any shape other than identifier, selector, or slice. -/
def parseType : TypeExpr → Except String String
  | TypeExpr.ident n => Except.ok n
  | TypeExpr.selector x sel =>
    match parseType x with
    | Except.error e => Except.error e
    | Except.ok pkg => Except.ok (pkg ++ "." ++ sel)
  | TypeExpr.array elt =>
    match parseType elt with
    | Except.error e => Except.error e
    | Except.ok t => Except.ok ("[]" ++ t)
  | TypeExpr.other desc => Except.error ("unsupported type: " ++ desc)

/-- Embedding of the `interface{}` default values `parseDefaultValue` can
produce: a Go string, int, bool, or []string. -/
inductive DefaultValue where
  | str (s : String)
  | int (i : Int)
  | bool (b : Bool)
  | strList (l : List String)
deriving DecidableEq, Repr

/-- Source `parseDefaultValue`: converts a raw default-tag string according to
the field's normalized type; malformed numerics and booleans silently keep
the raw string. -/
def parseDefaultValue (value fieldType : String) : DefaultValue :=
  if fieldType = "string" then DefaultValue.str value
  else if fieldType = "int" ∨ fieldType = "int32" ∨ fieldType = "int64" then
    match goAtoi value with
    | some i => DefaultValue.int i
    | none => DefaultValue.str value
  else if fieldType = "bool" then
    match goParseBool value with
    | some b => DefaultValue.bool b
    | none => DefaultValue.str value
  else if fieldType = "[]string" then
    if value ≠ "" then DefaultValue.strList (splitCommaS value) else DefaultValue.strList []
  else if fieldType = "time.Duration" then
    DefaultValue.str value
  else DefaultValue.str value

/-- Attempted match of the tag pattern `key:"([^\x22]*)"` at the very start of
`s`: the literal `key:"` prefix, then the longest run of non-quote characters,
then a closing quote; returns the captured run. -/
def matchKeyAt (pat s : List Char) : Option (List Char) :=
  if pat.isPrefixOf s then
    let rest := s.drop pat.length
    let cap := rest.takeWhile fun c => c ≠ '"'
    match rest.dropWhile (fun c => c ≠ '"') with
    | [] => none
    | _ :: _ => some cap
  else none

/-- Leftmost-match search of `regexp.FindStringSubmatch` for the tag patterns:
tries `matchKeyAt` at every start position, left to right. -/
def findLeftmost (pat : List Char) : List Char → Option (List Char)
  | [] => none
  | c :: cs =>
    match matchKeyAt pat (c :: cs) with
    | some cap => some cap
    | none => findLeftmost pat cs

/-- Source `extractJSONTag`: the first segment (before a comma) of the value
captured by the pattern `json:"([^\x22]*)"`, or `""`. -/
def extractJSONTag (tag : String) : String :=
  match findLeftmost ("json:\"").data tag.data with
  | none => ""
  | some cap =>
    match splitCommaAux [] cap with
    | [] => ""
    | p :: _ => if p ≠ [] then String.mk p else ""

/-- Source `extractDefaultFromTag`: the value captured by the pattern
`default:"([^\x22]*)"`, converted by `parseDefaultValue`; `none` is Go's `nil`. -/
def extractDefaultFromTag (tag fieldType : String) : Option DefaultValue :=
  match findLeftmost ("default:\"").data tag.data with
  | none => none
  | some cap => some (parseDefaultValue (String.mk cap) fieldType)

/-- Attempted match of the acronym regex `([A-Z]+)([A-Z][a-z])` at the start
of the list, with leftmost-first greedy semantics: a maximal upper-case run of
length at least two whose first successor is lower-case.  Returns the
replacement text `group1-group2` and the remainder after the match. -/
def matchAt1 (l : List Char) : Option (List Char × List Char) :=
  let run := l.takeWhile isUpperAZ
  let rest := l.dropWhile isUpperAZ
  if 2 ≤ run.length then
    match rest with
    | [] => none
    | c :: cs =>
      if isLowerAZ c then some (run.dropLast ++ '-' :: run.getLastD 'A' :: [c], cs)
      else none
  else none

/-- Replace-all pass for the acronym regex, fuelled by the input length (each
step consumes at least one character, so the fuel never runs out). -/
def replaceAll1Fuel : Nat → List Char → List Char
  | _, [] => []
  | 0, l => l
  | Nat.succ n, c :: cs =>
    match matchAt1 (c :: cs) with
    | some (rep, rest) => rep ++ replaceAll1Fuel n rest
    | none => c :: replaceAll1Fuel n cs

/-- Source regex pass one: `([A-Z]+)([A-Z][a-z])` replaced by `$\x7b1\x7d-$\x7b2\x7d`. -/
def replaceAll1 (l : List Char) : List Char :=
  replaceAll1Fuel l.length l

/-- Source regex pass two: `([a-z])([A-Z])` replaced by the two characters
with a hyphen between them, non-overlapping, left to right. -/
def replaceAll2 : List Char → List Char
  | [] => []
  | [c] => [c]
  | c1 :: c2 :: rest =>
    if isLowerAZ c1 && isUpperAZ c2 then c1 :: '-' :: c2 :: replaceAll2 rest
    else c1 :: replaceAll2 (c2 :: rest)

/-- Source `toKebabCase`: acronym pass, camel-case pass, then lowering. -/
def toKebabCase (s : String) : String :=
  String.mk ((replaceAll2 (replaceAll1 s.data)).map toLowerGo)

/-- Source `deriveFlagName`: kebab-case of the json tag when present, else of
the field name. -/
def deriveFlagName (fieldName jsonTag : String) : String :=
  if jsonTag ≠ "" then toKebabCase jsonTag else toKebabCase fieldName

/-- Comment-marker stripping and trimming applied to each doc line by
`parseFieldComment`. -/
def cleanDocText (t : String) : String :=
  goTrimSpace (goTrimSuffix (goTrimPfx (goTrimPfx t "//") "/*") "*/")

/-- Go `strings.HasPrefix`. -/
def goHasPfx (s pre : String) : Bool :=
  pre.data.isPrefixOf s.data

/-- Source `parseFieldComment`: join the non-`+` doc lines with single spaces;
if that yields nothing, take the first trailing inline comment. -/
def parseFieldComment (comment doc : List String) : String :=
  let description := doc.foldl (fun desc c =>
    let text := cleanDocText c
    if goHasPfx text "+" then desc
    else if desc == "" then text
    else desc ++ " " ++ text) ""
  if description == "" then
    match comment with
    | [] => ""
    | c :: _ => goTrimSpace (goTrimPfx c "//")
  else description

/-- Source `SupportedTypes` table mapping Go types to pflag method names. -/
def SupportedTypes : List (String × String) :=
  [("string", "StringVar"), ("int", "IntVar"), ("int32", "Int32Var"),
   ("int64", "Int64Var"), ("uint", "UintVar"), ("uint32", "Uint32Var"),
   ("uint64", "Uint64Var"), ("bool", "BoolVar"), ("float32", "Float32Var"),
   ("float64", "Float64Var"), ("[]string", "StringSliceVar"),
   ("[]int", "IntSliceVar"), ("time.Duration", "DurationVar")]

/-- Source `GetFlagMethod`: table lookup; `none` is Go's `exists = false`. -/
def GetFlagMethod (fieldType : String) : Option String :=
  (SupportedTypes.find? fun p => p.1 == fieldType).map fun p => p.2

/-- Source `HasShortFlag`: only string, int and bool get short flags. -/
def HasShortFlag (fieldType : String) : Bool :=
  fieldType = "string" || fieldType = "int" || fieldType = "bool"

/-- Source `getZeroValue`: the literal text of a type's zero value. -/
def getZeroValue (fieldType : String) : String :=
  if fieldType = "string" then "\"\""
  else if fieldType = "int" ∨ fieldType = "int32" ∨ fieldType = "int64" ∨
    fieldType = "uint" ∨ fieldType = "uint32" ∨ fieldType = "uint64" ∨
    fieldType = "float32" ∨ fieldType = "float64" then "0"
  else if fieldType = "bool" then "false"
  else if fieldType = "[]string" ∨ fieldType = "[]int" then fieldType ++ "\x7b\x7d"
  else if fieldType = "time.Duration" then "0"
  else "\"\""

/-- Go `fmt.Sprintf("%v", value)` on the values `DefaultValue` can hold. -/
def goV : DefaultValue → String
  | DefaultValue.str s => s
  | DefaultValue.int i => toString i
  | DefaultValue.bool b => if b then "true" else "false"
  | DefaultValue.strList l => "[" ++ String.intercalate " " l ++ "]"

/-- Go `fmt.Sprintf("%s", value)` on the values `DefaultValue` can hold. -/
def goSprintfS : DefaultValue → String
  | DefaultValue.str s => s
  | DefaultValue.int i => "%!s(int=" ++ toString i ++ ")"
  | DefaultValue.bool b => "%!s(bool=" ++ (if b then "true" else "false") ++ ")"
  | DefaultValue.strList l => "[" ++ String.intercalate " " l ++ "]"

/-- Source `formatDefaultValueCode`: renders the stored default (or the zero
value when absent) as source text, dispatching on the field type. -/
def formatDefaultValueCode (value : Option DefaultValue) (fieldType : String) : String :=
  match value with
  | none => getZeroValue fieldType
  | some v =>
    if fieldType = "string" then "\"" ++ goSprintfS v ++ "\""
    else if fieldType = "[]string" then
      match v with
      | DefaultValue.strList l =>
        "[]string\x7b" ++ String.intercalate ", " (l.map fun s => "\"" ++ s ++ "\"") ++ "\x7d"
      | _ => "[]string\x7b\x7d"
    else if fieldType = "time.Duration" then
      match v with
      | DefaultValue.str s => goTrimSuffix s "s" ++ "*time.Second"
      | _ => "0"
    else goV v

/-- Embedding of one `ast.Field` of a struct: the declared identifiers (empty
for an embedded field), the type expression, the raw tag literal (backquotes
included, as in `ast.BasicLit.Value`), the doc-comment lines above the field
and the inline-comment lines after it (each line carries its comment markers,
as in `ast.Comment.Text`). -/
structure Field where
  names : List String
  type : TypeExpr
  tag : Option String
  doc : List String
  comment : List String
deriving DecidableEq, Repr

/-- Shape of a type specification: a struct with fields, or any other type
(interface, alias target, ...). -/
inductive TypeSpecType where
  | structType (fields : List Field)
  | otherType
deriving DecidableEq, Repr

/-- Embedding of one `ast.TypeSpec`. -/
structure TypeSpec where
  name : String
  type : TypeSpecType
deriving DecidableEq, Repr

/-- Embedding of one top-level declaration: a `type` GenDecl with its doc
block and specifications, or any other declaration (func, var, import, ...). -/
inductive Decl where
  | typeDecl (doc : List String) (specs : List TypeSpec)
  | otherDecl
deriving DecidableEq, Repr

/-- Embedding of one syntactically well-formed source unit. -/
structure SourceFile where
  packageName : String
  decls : List Decl
deriving DecidableEq, Repr

/-- Mirror of the Go `types.FieldInfo` record, with Go zero values as field
defaults. -/
structure FieldInfo where
  Name : String := ""
  Typ : String := ""
  JSONTag : String := ""
  FlagName : String := ""
  Description : String := ""
  DefaultValue : Option DefaultValue := none
  DefaultValueCode : String := ""
  Required : Bool := false
  ShortFlag : String := ""
  FlagMethod : String := ""
deriving DecidableEq, Repr

/-- Mirror of the Go `types.StructInfo` record. -/
structure StructInfo where
  Name : String := ""
  PackageName : String := ""
  Fields : List FieldInfo := []
  Imports : List String := []
deriving DecidableEq, Repr

/-- Source `ast.IsExported`: the identifier starts with an upper-case letter
(ASCII over the identifiers this tool processes). -/
def isExported (s : String) : Bool :=
  match s.data with
  | [] => false
  | c :: _ => isUpperAZ c

/-- Source `hasAnnotation`: some comment line of the doc block contains the
literal `+flags-gen`; an absent (nil) group is the empty list. -/
def hasAnnot (doc : List String) : Bool :=
  doc.any fun c => containsSubstr ("+flags-gen").data c.data

/-- Source `parseField`: resolve the type, then populate tag-derived data
(json key, flag name, default value) and the description. -/
def parseField (name : String) (f : Field) : Except String FieldInfo :=
  match parseType f.type with
  | Except.error e => Except.error ("failed to parse type for field " ++ name ++ ": " ++ e)
  | Except.ok fieldType =>
    let base : FieldInfo := { Name := name, Typ := fieldType }
    let withTag : FieldInfo :=
      match f.tag with
      | some tagRaw =>
        let tag := goTrimBackticks tagRaw
        let j := extractJSONTag tag
        { base with JSONTag := j, FlagName := deriveFlagName name j,
                    DefaultValue := extractDefaultFromTag tag fieldType }
      | none => { base with FlagName := deriveFlagName name "" }
    Except.ok { withTag with Description := parseFieldComment f.comment f.doc }

/-- Post-processing applied by `parseStruct` to each parsed field: when the
type is in the supported table, record the pflag method and precompute the
default-value literal. -/
def augmentField (fi : FieldInfo) : FieldInfo :=
  match GetFlagMethod fi.Typ with
  | some m => { fi with FlagMethod := m,
                        DefaultValueCode := formatDefaultValueCode fi.DefaultValue fi.Typ }
  | none => fi

/-- Inner loop of `parseStruct` over the identifiers of one field declaration:
unexported names are skipped, each exported one yields one augmented
`FieldInfo`, and a field-parse failure aborts with a wrapped error. -/
def processNames (f : Field) : List String → Except String (List FieldInfo)
  | [] => Except.ok []
  | n :: ns =>
    if isExported n then
      match parseField n f with
      | Except.error e => Except.error ("failed to parse field " ++ n ++ ": " ++ e)
      | Except.ok fi =>
        match processNames f ns with
        | Except.error e => Except.error e
        | Except.ok rest => Except.ok (augmentField fi :: rest)
    else processNames f ns

/-- Outer loop of `parseStruct` over the field declarations, in source order;
a declaration with no identifiers (embedded field) contributes nothing. -/
def processFields : List Field → Except String (List FieldInfo)
  | [] => Except.ok []
  | f :: fs =>
    match processNames f f.names with
    | Except.error e => Except.error e
    | Except.ok xs =>
      match processFields fs with
      | Except.error e => Except.error e
      | Except.ok ys => Except.ok (xs ++ ys)

/-- Source `parseStruct`: collect the field descriptors and the auxiliary
imports (the `time` import exactly when some field is a `time.Duration`). -/
def parseStruct (name : String) (fields : List Field) (packageName : String) :
    Except String StructInfo :=
  match processFields fields with
  | Except.error e => Except.error e
  | Except.ok fis =>
    Except.ok { Name := name, PackageName := packageName, Fields := fis,
                Imports := if fis.any (fun fi => fi.Typ == "time.Duration") then ["time"] else [] }

/-- Loop of `ParseFile` over the specifications of one `type` declaration:
a spec is materialized exactly when it is a struct and the declaration's doc
block carries the marker; a struct-parse failure aborts with a wrapped error. -/
def parseSpecs (doc : List String) (pkg : String) : List TypeSpec → Except String (List StructInfo)
  | [] => Except.ok []
  | ts :: rest =>
    match ts.type with
    | TypeSpecType.structType fields =>
      if hasAnnot doc then
        match parseStruct ts.name fields pkg with
        | Except.error e => Except.error ("failed to parse struct " ++ ts.name ++ ": " ++ e)
        | Except.ok si =>
          match parseSpecs doc pkg rest with
          | Except.error e => Except.error e
          | Except.ok sis => Except.ok (si :: sis)
      else parseSpecs doc pkg rest
    | TypeSpecType.otherType => parseSpecs doc pkg rest

/-- Loop of `ParseFile` over the top-level declarations. -/
def parseDecls (pkg : String) : List Decl → Except String (List StructInfo)
  | [] => Except.ok []
  | Decl.typeDecl doc specs :: rest =>
    match parseSpecs doc pkg specs with
    | Except.error e => Except.error e
    | Except.ok xs =>
      match parseDecls pkg rest with
      | Except.error e => Except.error e
      | Except.ok ys => Except.ok (xs ++ ys)
  | Decl.otherDecl :: rest => parseDecls pkg rest

/-- Source `ParseFile` on an already syntactically parsed unit: the ordered
descriptors of the annotated structs, or the first failure. -/
def ParseFile (sf : SourceFile) : Except String (List StructInfo) :=
  parseDecls sf.packageName sf.decls

/-- Modelled from `cmd/flags-gen/main.go` (`runFlagsGen`): the CLI layer,
not the parser, rejects an empty result list. -/
def runFlagsGenRejectsEmpty (structs : List StructInfo) : Bool :=
  structs.length == 0

/-- Go field-type validity: `parseType` rejects the field's type expression. -/
def fieldTypeBad (f : Field) : Bool :=
  match parseType f.type with
  | Except.error _ => true
  | Except.ok _ => false

/-- Exported identifiers of bad-typed field declarations, in order. -/
def badExportedNames : List Field → List String
  | [] => []
  | f :: fs =>
    (if fieldTypeBad f then f.names.filter (fun n => isExported n) else []) ++
      badExportedNames fs

/-- Exported identifiers of bad-typed fields across the struct specs of one
declaration. -/
def specsBadNames : List TypeSpec → List String
  | [] => []
  | ts :: rest =>
    (match ts.type with
     | TypeSpecType.structType fs => badExportedNames fs
     | TypeSpecType.otherType => []) ++ specsBadNames rest

/-- Exported identifiers of bad-typed fields inside annotated structs of a
source unit; nonempty exactly when the unit contains an annotated struct
with an exported field of unsupported type shape. -/
def fileBadNames : List Decl → List String
  | [] => []
  | Decl.typeDecl doc specs :: rest =>
    (if hasAnnot doc then specsBadNames specs else []) ++ fileBadNames rest
  | Decl.otherDecl :: rest => fileBadNames rest

/-- An error message that names the identifier `n` and carries the
unsupported-type phrase. -/
def errorNames (n msg : String) : Prop :=
  containsSubstr n.data msg.data = true ∧
  containsSubstr ("unsupported type").data msg.data = true

/-- Exported identifiers of a struct's field declarations, in source order. -/
def exportedNames : List Field → List String
  | [] => []
  | f :: fs => f.names.filter (fun n => isExported n) ++ exportedNames fs

/-- Names of the type specifications of one declaration that the parser
selects: struct shape and marker present. -/
def structSpecNames (doc : List String) : List TypeSpec → List String
  | [] => []
  | ts :: rest =>
    (match ts.type with
     | TypeSpecType.structType _ => if hasAnnot doc then [ts.name] else []
     | TypeSpecType.otherType => []) ++ structSpecNames doc rest

/-- Names of the type declarations of a unit that the parser selects. -/
def selectedSpecNames : List Decl → List String
  | [] => []
  | Decl.typeDecl doc specs :: rest => structSpecNames doc specs ++ selectedSpecNames rest
  | Decl.otherDecl :: rest => selectedSpecNames rest

/-- JSON key the parser would associate with a field declaration. -/
def fieldJSONTag (f : Field) : String :=
  match f.tag with
  | some tagRaw => extractJSONTag (goTrimBackticks tagRaw)
  | none => ""

/-- End-to-end scenario input of the specification: annotated struct with
Host, Port, Debug, Tags and the unexported secret. -/
def endToEndFile : SourceFile :=
  { packageName := "main",
    decls := [Decl.typeDecl ["// +flags-gen", "// ServerConfig defines server configuration"]
      [{ name := "ServerConfig", type := TypeSpecType.structType [
          { names := ["Host"], type := TypeExpr.ident "string",
            tag := some "`json:\"host\" default:\"localhost\"`",
            doc := ["// Host is the server hostname"], comment := [] },
          { names := ["Port"], type := TypeExpr.ident "int",
            tag := some "`json:\"port\" default:\"8080\"`",
            doc := ["// Port is the server port"], comment := [] },
          { names := ["Debug"], type := TypeExpr.ident "bool",
            tag := some "`json:\"debug\"`",
            doc := ["// Enable debug mode"], comment := [] },
          { names := ["Tags"], type := TypeExpr.array (TypeExpr.ident "string"),
            tag := some "`json:\"tags\" default:\"web,api\"`",
            doc := ["// Tags for filtering"], comment := [] },
          { names := ["secret"], type := TypeExpr.ident "string",
            tag := some "`json:\"secret\"`",
            doc := ["// unexported field should be ignored"], comment := [] } ] }]] }

/-- Unit whose annotated struct has a pointer-typed exported field. -/
def badTypeFile : SourceFile :=
  { packageName := "main",
    decls := [Decl.typeDecl ["// +flags-gen"]
      [{ name := "BadConfig", type := TypeSpecType.structType [
          { names := ["Host"], type := TypeExpr.ident "string", tag := none,
            doc := [], comment := [] },
          { names := ["Handle"], type := TypeExpr.other "*ast.StarExpr", tag := none,
            doc := [], comment := [] } ] }]] }

/-- Unit mixing an unannotated struct, an annotated non-struct type, an
annotated struct and a non-type declaration; only `Kept` is selected. -/
def gatingFile : SourceFile :=
  { packageName := "main",
    decls := [
      Decl.otherDecl,
      Decl.typeDecl ["// plain doc"]
        [{ name := "Ignored", type := TypeSpecType.structType [
            { names := ["Value"], type := TypeExpr.ident "string", tag := none,
              doc := [], comment := [] } ] }],
      Decl.typeDecl ["// +flags-gen"]
        [{ name := "Alias", type := TypeSpecType.otherType },
         { name := "Kept", type := TypeSpecType.structType [
            { names := ["Value"], type := TypeExpr.ident "string", tag := none,
              doc := [], comment := [] } ] }]] }

/-- Unit with no annotated struct at all: an unannotated struct (even one
with an unsupported field type) and an annotated non-struct type. -/
def noMarkerFile : SourceFile :=
  { packageName := "main",
    decls := [
      Decl.typeDecl ["// ordinary type"]
        [{ name := "Plain", type := TypeSpecType.structType [
            { names := ["P"], type := TypeExpr.other "*ast.MapType", tag := none,
              doc := [], comment := [] } ] }],
      Decl.typeDecl ["// +flags-gen"]
        [{ name := "NotAStruct", type := TypeSpecType.otherType }],
      Decl.otherDecl] }

/-- Field declaration listing several identifiers with one shared type, tag
and doc comment. -/
def multiNameField : Field :=
  { names := ["Alpha", "beta", "Gamma"], type := TypeExpr.ident "int",
    tag := some "`json:\"shared\" default:\"7\"`",
    doc := ["// shared description"], comment := [] }

/-- Field list exercising the exclusion rules: a multi-identifier field, an
embedded (nameless) field and an unexported field. -/
def exclusionFields : List Field :=
  [{ names := ["First"], type := TypeExpr.ident "string", tag := none,
     doc := [], comment := [] },
   { names := [], type := TypeExpr.ident "Base", tag := none,
     doc := [], comment := [] },
   { names := ["second"], type := TypeExpr.ident "int", tag := none,
     doc := [], comment := [] },
   multiNameField]

/-- Descriptor list the parser produces for `gatingFile`. -/
def gatingResult : List StructInfo :=
  [{ Name := "Kept", PackageName := "main",
     Fields := [{ Name := "Value", Typ := "string", FlagName := "value",
                  DefaultValueCode := "\"\"", FlagMethod := "StringVar" }],
     Imports := [] }]

/-- Descriptor the parser produces for `exclusionFields`. -/
def exclusionStructInfo : StructInfo :=
  { Name := "Mixed", PackageName := "main",
    Fields := [
      { Name := "First", Typ := "string", FlagName := "first",
        DefaultValueCode := "\"\"", FlagMethod := "StringVar" },
      { Name := "Alpha", Typ := "int", JSONTag := "shared", FlagName := "shared",
        Description := "shared description", DefaultValue := some (DefaultValue.int 7),
        DefaultValueCode := "7", FlagMethod := "IntVar" },
      { Name := "Gamma", Typ := "int", JSONTag := "shared", FlagName := "shared",
        Description := "shared description", DefaultValue := some (DefaultValue.int 7),
        DefaultValueCode := "7", FlagMethod := "IntVar" }],
    Imports := [] }

/-- Field descriptors the parser produces for `multiNameField`. -/
def multiNameResult : List FieldInfo :=
  [{ Name := "Alpha", Typ := "int", JSONTag := "shared", FlagName := "shared",
     Description := "shared description", DefaultValue := some (DefaultValue.int 7),
     DefaultValueCode := "7", FlagMethod := "IntVar" },
   { Name := "Gamma", Typ := "int", JSONTag := "shared", FlagName := "shared",
     Description := "shared description", DefaultValue := some (DefaultValue.int 7),
     DefaultValueCode := "7", FlagMethod := "IntVar" }]

theorem splitCommaAux_ne_nil : ∀ (cs : List Char) (acc : List Char), splitCommaAux acc cs ≠ []
  | [], acc => by simp [splitCommaAux]
  | c :: cs, acc => by
    by_cases h : c = ','
    · simp [splitCommaAux, h]
    · simpa [splitCommaAux, h] using splitCommaAux_ne_nil cs (c :: acc)

theorem joinComma_cons (l : List Char) (ls : List (List Char)) (h : ls ≠ []) :
    joinComma (l :: ls) = l ++ ',' :: joinComma ls := by
  cases ls with
  | nil => exact absurd rfl h
  | cons a as => rfl

theorem joinComma_splitCommaAux :
    ∀ (cs : List Char) (acc : List Char), joinComma (splitCommaAux acc cs) = acc.reverse ++ cs
  | [], acc => by simp [splitCommaAux, joinComma]
  | c :: cs, acc => by
    by_cases h : c = ','
    · subst h
      have hne := splitCommaAux_ne_nil cs ([] : List Char)
      rw [splitCommaAux, if_pos rfl, joinComma_cons _ _ hne, joinComma_splitCommaAux cs []]
      simp
    · rw [splitCommaAux, if_neg h, joinComma_splitCommaAux cs (c :: acc)]
      simp

theorem splitCommaAux_no_comma :
    ∀ (cs : List Char) (acc : List Char), (∀ c ∈ acc, c ≠ ',') →
      ∀ p ∈ splitCommaAux acc cs, ∀ c ∈ p, c ≠ ','
  | [], acc, hacc => by
    intro p hp c hc
    simp [splitCommaAux] at hp
    subst hp
    exact hacc c (List.mem_reverse.mp hc)
  | c :: cs, acc, hacc => by
    intro p hp d hd
    by_cases h : c = ','
    · rw [splitCommaAux, if_pos h] at hp
      rcases List.mem_cons.mp hp with h1 | h1
      · subst h1
        exact hacc d (List.mem_reverse.mp hd)
      · exact splitCommaAux_no_comma cs [] (by simp) p h1 d hd
    · rw [splitCommaAux, if_neg h] at hp
      refine splitCommaAux_no_comma cs (c :: acc) ?_ p hp d hd
      intro e he
      rcases List.mem_cons.mp he with rfl | he
      · exact h
      · exact hacc e he

theorem parseField_ok_of_parseType (nm : String) (f : Field) (t : String)
    (h : parseType f.type = Except.ok t) : ∃ fi, parseField nm f = Except.ok fi := by
  unfold parseField
  rw [h]
  exact ⟨_, rfl⟩

/-- C1: on the end-to-end scenario input — exported fields Host (json `host`,
default `localhost`), Port (json `port`, default `8080`), Debug (no default),
Tags (json `tags`, default `web,api`) and the unexported `secret` — parsing
yields exactly four field descriptors with flag names host, port, debug,
tags and precomputed default-value literals `"localhost"`, `8080`, `false`
and the []string literal with elements "web" and "api". -/
theorem c1_end_to_end :
    ParseFile endToEndFile = Except.ok [
      { Name := "ServerConfig", PackageName := "main",
        Fields := [
          { Name := "Host", Typ := "string", JSONTag := "host", FlagName := "host",
            Description := "Host is the server hostname",
            DefaultValue := some (DefaultValue.str "localhost"),
            DefaultValueCode := "\"localhost\"", FlagMethod := "StringVar" },
          { Name := "Port", Typ := "int", JSONTag := "port", FlagName := "port",
            Description := "Port is the server port",
            DefaultValue := some (DefaultValue.int 8080),
            DefaultValueCode := "8080", FlagMethod := "IntVar" },
          { Name := "Debug", Typ := "bool", JSONTag := "debug", FlagName := "debug",
            Description := "Enable debug mode", DefaultValue := none,
            DefaultValueCode := "false", FlagMethod := "BoolVar" },
          { Name := "Tags", Typ := "[]string", JSONTag := "tags", FlagName := "tags",
            Description := "Tags for filtering",
            DefaultValue := some (DefaultValue.strList ["web", "api"]),
            DefaultValueCode := "[]string\x7b\"web\", \"api\"\x7d",
            FlagMethod := "StringSliceVar" }],
        Imports := [] }] := by
  decide

/-- C5: the kebab-case conversion (acronym pass, camel-case pass, then
lowering) maps ProbeAddr to probe-addr, EnableLeaderElection to
enable-leader-election, V to v, HTTPPort to http-port and XMLParser to
xml-parser. -/
theorem c5_kebab_case :
    toKebabCase "ProbeAddr" = "probe-addr" ∧
    toKebabCase "EnableLeaderElection" = "enable-leader-election" ∧
    toKebabCase "V" = "v" ∧
    toKebabCase "HTTPPort" = "http-port" ∧
    toKebabCase "XMLParser" = "xml-parser" :=
  ⟨rfl, rfl, rfl, rfl, rfl⟩

/-- C6 counterexample: for the unsigned kind `uint`, a well-formed default
`42` is not parsed into a typed integer; the raw string is retained, so the
claim's coverage of unsigned widths fails. -/
theorem c6_uint_counterexample :
    extractDefaultFromTag "default:\"42\"" "uint" = some (DefaultValue.str "42") ∧
    parseDefaultValue "42" "uint" = DefaultValue.str "42" ∧
    parseDefaultValue "42" "uint" ≠ DefaultValue.int 42 := by
  refine ⟨rfl, rfl, ?_⟩
  decide

/-- C6 (amended): for the signed integer kinds int, int32 and int64 a default
tag value is parsed as a base-10 integer and stored typed; on parse failure
the raw string is silently retained; and a field of such a kind always parses
to a descriptor, whatever its tag. -/
theorem c6_signed_int_defaults (v t : String)
    (ht : t = "int" ∨ t = "int32" ∨ t = "int64") :
    ((∃ i, goAtoi v = some i ∧ parseDefaultValue v t = DefaultValue.int i) ∨
      (goAtoi v = none ∧ parseDefaultValue v t = DefaultValue.str v)) ∧
    (∀ (nm : String) (f : Field), f.type = TypeExpr.ident t →
      ∃ fi, parseField nm f = Except.ok fi) := by
  constructor
  · rcases ht with rfl | rfl | rfl <;>
      [skip; skip; skip] <;>
      cases h : goAtoi v with
      | some i => exact Or.inl ⟨i, rfl, by simp [parseDefaultValue, h]⟩
      | none => exact Or.inr ⟨rfl, by simp [parseDefaultValue, h]⟩
  · intro nm f hf
    exact parseField_ok_of_parseType nm f t (by rw [hf]; rfl)

/-- C6 witness: the amended statement at the concrete input 42 for type int. -/
theorem c6_signed_int_defaults_witness :
    ((∃ i, goAtoi "42" = some i ∧ parseDefaultValue "42" "int" = DefaultValue.int i) ∨
      (goAtoi "42" = none ∧ parseDefaultValue "42" "int" = DefaultValue.str "42")) ∧
    (∀ (nm : String) (f : Field), f.type = TypeExpr.ident "int" →
      ∃ fi, parseField nm f = Except.ok fi) :=
  c6_signed_int_defaults "42" "int" (Or.inl rfl)

/-- C7: a duration default is retained as the raw string at parse time; the
rendered literal strips the trailing `s` and multiplies by `time.Second`,
so `30s` renders as `30*time.Second`, and an absent default renders as `0`. -/
theorem c7_duration_defaults :
    (∀ v : String, parseDefaultValue v "time.Duration" = DefaultValue.str v) ∧
    extractDefaultFromTag "json:\"timeout\" default:\"30s\"" "time.Duration" =
      some (DefaultValue.str "30s") ∧
    formatDefaultValueCode (some (DefaultValue.str "30s")) "time.Duration" = "30*time.Second" ∧
    formatDefaultValueCode none "time.Duration" = "0" :=
  ⟨fun _ => rfl, rfl, rfl, rfl⟩

/-- C8: a string-list default is the comma split of the raw string — the
pieces contain no comma and joining them with commas restores the raw string,
so order is preserved — and the empty raw string yields the empty list, not
a one-element list. -/
theorem c8_string_list_defaults :
    (∀ v : String, ∃ ls : List String,
      parseDefaultValue v "[]string" = DefaultValue.strList ls ∧
      joinComma (ls.map String.data) = v.data ∧
      (ls = [] ↔ v = "") ∧
      ∀ s ∈ ls, ∀ c ∈ s.data, c ≠ ',') ∧
    parseDefaultValue "web,api" "[]string" = DefaultValue.strList ["web", "api"] ∧
    parseDefaultValue "" "[]string" = DefaultValue.strList [] := by
  refine ⟨?_, rfl, rfl⟩
  intro v
  by_cases hv : v = ""
  · subst hv
    exact ⟨[], rfl, rfl, by simp, by simp⟩
  · refine ⟨splitCommaS v, ?_, ?_, ?_, ?_⟩
    · have hstep : parseDefaultValue v "[]string" =
          if v ≠ "" then DefaultValue.strList (splitCommaS v) else DefaultValue.strList [] := rfl
      rw [hstep, if_pos hv]
    · have hmap : (splitCommaS v).map String.data = splitCommaAux [] v.data := by
        rw [splitCommaS, List.map_map]
        exact List.map_id'' (fun _ => rfl) _
      rw [hmap, joinComma_splitCommaAux v.data []]
      rfl
    · constructor
      · intro h
        exact absurd h (by
          simp only [splitCommaS]
          intro hmapnil
          exact splitCommaAux_ne_nil v.data [] (List.map_eq_nil_iff.mp hmapnil))
      · intro h
        exact absurd h hv
    · intro s hs c hc
      rcases List.mem_map.mp hs with ⟨p, hp, rfl⟩
      exact splitCommaAux_no_comma v.data [] (by simp) p hp c hc

/-- C8 witness: the split of the concrete raw string web,api. -/
theorem c8_string_list_defaults_witness :
    ∃ ls : List String,
      parseDefaultValue "web,api" "[]string" = DefaultValue.strList ls ∧
      joinComma (ls.map String.data) = ("web,api").data ∧
      (ls = [] ↔ "web,api" = "") ∧
      ∀ s ∈ ls, ∀ c ∈ s.data, c ≠ ',' :=
  c8_string_list_defaults.1 "web,api"

theorem strData_append (a b : String) : (a ++ b).data = a.data ++ b.data := rfl

theorem containsSubstr_iff (pat s : List Char) :
    containsSubstr pat s = true ↔ ∃ t, t <:+ s ∧ pat <+: t := by
  constructor
  · intro h
    obtain ⟨t, ht, hp⟩ := List.any_eq_true.mp h
    exact ⟨t, (List.mem_tails t s).mp ht, List.isPrefixOf_iff_prefix.mp hp⟩
  · intro ⟨t, ht, hp⟩
    exact List.any_eq_true.mpr ⟨t, (List.mem_tails t s).mpr ht, List.isPrefixOf_iff_prefix.mpr hp⟩

theorem containsSubstr_self (pat : List Char) : containsSubstr pat pat = true :=
  (containsSubstr_iff pat pat).mpr ⟨pat, List.suffix_refl pat, List.prefix_refl pat⟩

theorem containsSubstr_appL (pat a s : List Char) (h : containsSubstr pat s = true) :
    containsSubstr pat (a ++ s) = true := by
  rw [containsSubstr_iff] at h ⊢
  obtain ⟨t, ht, hp⟩ := h
  exact ⟨t, ht.trans (List.suffix_append a s), hp⟩

theorem containsSubstr_appR (pat s b : List Char) (h : containsSubstr pat s = true) :
    containsSubstr pat (s ++ b) = true := by
  rw [containsSubstr_iff] at h ⊢
  obtain ⟨t, ht, hp⟩ := h
  obtain ⟨u, rfl⟩ := ht
  exact ⟨t ++ b, ⟨u, by rw [List.append_assoc]⟩, hp.trans (List.prefix_append t b)⟩

theorem containsSubstr_strL (pat : List Char) (a s : String)
    (h : containsSubstr pat s.data = true) : containsSubstr pat (a ++ s).data = true := by
  rw [strData_append]
  exact containsSubstr_appL pat a.data s.data h

theorem containsSubstr_strR (pat : List Char) (s b : String)
    (h : containsSubstr pat s.data = true) : containsSubstr pat (s ++ b).data = true := by
  rw [strData_append]
  exact containsSubstr_appR pat s.data b.data h

theorem parseType_error_msg :
    ∀ {e : TypeExpr} {msg : String}, parseType e = Except.error msg →
      ∃ d, msg = "unsupported type: " ++ d := by
  intro e
  induction e with
  | ident n => intro msg h; exact absurd h (by simp [parseType])
  | selector x sel ih =>
    intro msg h
    rw [parseType] at h
    cases hx : parseType x with
    | error e0 => rw [hx] at h; cases h; exact ih hx
    | ok t => rw [hx] at h; exact absurd h (by simp)
  | array elt ih =>
    intro msg h
    rw [parseType] at h
    cases hx : parseType elt with
    | error e0 => rw [hx] at h; cases h; exact ih hx
    | ok t => rw [hx] at h; exact absurd h (by simp)
  | other desc =>
    intro msg h
    rw [parseType] at h
    cases h
    exact ⟨desc, rfl⟩

theorem parseField_eq (nm : String) (f : Field) (t : String)
    (h : parseType f.type = Except.ok t) :
    parseField nm f = Except.ok {
      Name := nm, Typ := t,
      JSONTag := fieldJSONTag f,
      FlagName := deriveFlagName nm (fieldJSONTag f),
      DefaultValue := (match f.tag with
        | some tagRaw => extractDefaultFromTag (goTrimBackticks tagRaw) t
        | none => none),
      Description := parseFieldComment f.comment f.doc } := by
  cases htag : f.tag with
  | none => unfold parseField fieldJSONTag; rw [h, htag]
  | some tagRaw => unfold parseField fieldJSONTag; rw [h, htag]

theorem parseField_ok_Name {nm : String} {f : Field} {fi : FieldInfo}
    (h : parseField nm f = Except.ok fi) : fi.Name = nm := by
  cases hp : parseType f.type with
  | error e =>
    rw [parseField, hp] at h
    exact absurd h (by simp)
  | ok t =>
    rw [parseField_eq nm f t hp] at h
    cases h
    rfl

theorem parseField_error {nm : String} {f : Field} {msg : String}
    (h : parseField nm f = Except.error msg) :
    fieldTypeBad f = true ∧
      ∃ e, parseType f.type = Except.error e ∧
        msg = "failed to parse type for field " ++ nm ++ ": " ++ e := by
  cases hp : parseType f.type with
  | error e =>
    rw [parseField, hp] at h
    cases h
    exact ⟨by rw [fieldTypeBad, hp], e, rfl, rfl⟩
  | ok t =>
    rw [parseField_eq nm f t hp] at h
    exact absurd h (by simp)

theorem parseField_err_of_bad {nm : String} {f : Field} (hb : fieldTypeBad f = true) :
    ∃ e, parseType f.type = Except.error e ∧
      parseField nm f = Except.error ("failed to parse type for field " ++ nm ++ ": " ++ e) := by
  cases hp : parseType f.type with
  | error e => exact ⟨e, rfl, by rw [parseField, hp]⟩
  | ok t => rw [fieldTypeBad, hp] at hb; cases hb

theorem augmentField_Name (fi : FieldInfo) : (augmentField fi).Name = fi.Name := by
  cases hg : GetFlagMethod fi.Typ <;> simp [augmentField, hg]

theorem augmentField_parts (fi : FieldInfo) :
    (augmentField fi).Typ = fi.Typ ∧
    (augmentField fi).Description = fi.Description ∧
    (augmentField fi).DefaultValue = fi.DefaultValue ∧
    (augmentField fi).FlagName = fi.FlagName := by
  cases hg : GetFlagMethod fi.Typ <;> simp [augmentField, hg]

theorem processNames_ok_names {f : Field} :
    ∀ {ns : List String} {l : List FieldInfo}, processNames f ns = Except.ok l →
      l.map (fun fi => fi.Name) = ns.filter (fun n => isExported n)
  | [], l, h => by
    cases h
    rfl
  | n :: ns, l, h => by
    by_cases he : isExported n = true
    · rw [processNames, if_pos he] at h
      cases hp : parseField n f with
      | error e => rw [hp] at h; exact absurd h (by simp)
      | ok fi =>
        rw [hp] at h
        cases hr : processNames f ns with
        | error e => rw [hr] at h; exact absurd h (by simp)
        | ok rest =>
          rw [hr] at h
          cases h
          rw [List.map_cons, augmentField_Name, parseField_ok_Name hp,
            processNames_ok_names hr]
          simp [List.filter_cons, he]
    · rw [processNames, if_neg he] at h
      rw [processNames_ok_names h]
      simp [List.filter_cons, he]

theorem processNames_mem {f : Field} :
    ∀ {ns : List String} {l : List FieldInfo}, processNames f ns = Except.ok l →
      ∀ a ∈ l, ∃ n fi, n ∈ ns ∧ isExported n = true ∧
        parseField n f = Except.ok fi ∧ a = augmentField fi
  | [], l, h => by
    cases h
    intro a ha
    cases ha
  | n :: ns, l, h => by
    by_cases he : isExported n = true
    · rw [processNames, if_pos he] at h
      cases hp : parseField n f with
      | error e => rw [hp] at h; exact absurd h (by simp)
      | ok fi =>
        rw [hp] at h
        cases hr : processNames f ns with
        | error e => rw [hr] at h; exact absurd h (by simp)
        | ok rest =>
          rw [hr] at h
          cases h
          intro a ha
          rcases List.mem_cons.mp ha with rfl | ha
          · exact ⟨n, fi, List.mem_cons_self n ns, he, hp, rfl⟩
          · obtain ⟨n', fi', hn', he', hp', rfl⟩ := processNames_mem hr a ha
            exact ⟨n', fi', List.mem_cons_of_mem n hn', he', hp', rfl⟩
    · rw [processNames, if_neg he] at h
      intro a ha
      obtain ⟨n', fi', hn', he', hp', rfl⟩ := processNames_mem h a ha
      exact ⟨n', fi', List.mem_cons_of_mem n hn', he', hp', rfl⟩

theorem processNames_error_imp {f : Field} :
    ∀ {ns : List String} {msg : String}, processNames f ns = Except.error msg →
      fieldTypeBad f = true ∧ ∃ n ∈ ns, isExported n = true
  | [], msg, h => by cases h
  | n :: ns, msg, h => by
    by_cases he : isExported n = true
    · rw [processNames, if_pos he] at h
      cases hp : parseField n f with
      | error e =>
        exact ⟨(parseField_error hp).1, n, List.mem_cons_self n ns, he⟩
      | ok fi =>
        rw [hp] at h
        cases hr : processNames f ns with
        | error e =>
          obtain ⟨hb, n', hn', he'⟩ := processNames_error_imp hr
          exact ⟨hb, n', List.mem_cons_of_mem n hn', he'⟩
        | ok rest => rw [hr] at h; exact absurd h (by simp)
    · rw [processNames, if_neg he] at h
      obtain ⟨hb, n', hn', he'⟩ := processNames_error_imp h
      exact ⟨hb, n', List.mem_cons_of_mem n hn', he'⟩

theorem processNames_err_of_bad {f : Field} (hb : fieldTypeBad f = true) :
    ∀ {ns : List String}, (∃ n ∈ ns, isExported n = true) →
      ∃ msg, processNames f ns = Except.error msg ∧
        ∃ n ∈ ns, isExported n = true ∧ errorNames n msg
  | [], hex => absurd hex (by simp)
  | n :: ns, hex => by
    by_cases he : isExported n = true
    · obtain ⟨e, hpt, hpf⟩ := @parseField_err_of_bad n f hb
      obtain ⟨d, rfl⟩ := parseType_error_msg hpt
      refine ⟨_, by rw [processNames, if_pos he, hpf], n, List.mem_cons_self n ns, he, ?_, ?_⟩
      · exact containsSubstr_strR _ _ _ (containsSubstr_strR _ _ _
          (containsSubstr_strL _ _ _ (containsSubstr_self n.data)))
      · refine containsSubstr_strL _ _ _ (containsSubstr_strL _ _ _ ?_)
        exact containsSubstr_strR _ _ _ (by decide)
    · have hex' : ∃ n' ∈ ns, isExported n' = true := by
        rcases hex with ⟨n', hn', he'⟩
        rcases List.mem_cons.mp hn' with rfl | hn'
        · exact absurd he' he
        · exact ⟨n', hn', he'⟩
      obtain ⟨msg, hmsg, n', hn', he', hc⟩ := processNames_err_of_bad hb hex'
      exact ⟨msg, by rw [processNames, if_neg he, hmsg], n',
        List.mem_cons_of_mem n hn', he', hc⟩

theorem processFields_err_of_bad :
    ∀ {fs : List Field}, badExportedNames fs ≠ [] →
      ∃ msg, processFields fs = Except.error msg ∧
        ∃ n ∈ badExportedNames fs, errorNames n msg
  | [], h => absurd rfl h
  | f :: fs, h => by
    by_cases hft : fieldTypeBad f = true
    · by_cases hfn : ∃ n ∈ f.names, isExported n = true
      · obtain ⟨msg, hmsg, n, hn, he, hc⟩ := processNames_err_of_bad hft hfn
        refine ⟨msg, by rw [processFields, hmsg], n, ?_, hc⟩
        rw [badExportedNames, if_pos hft]
        exact List.mem_append_left _ (List.mem_filter.mpr ⟨hn, he⟩)
      · have hfilter : f.names.filter (fun n => isExported n) = [] := by
          rw [List.filter_eq_nil_iff]
          intro n hn
          exact fun he => hfn ⟨n, hn, he⟩
        have htail : badExportedNames fs ≠ [] := by
          rw [badExportedNames, if_pos hft, hfilter] at h
          simpa using h
        cases hr : processNames f f.names with
        | error e =>
          obtain ⟨_, n, hn, he⟩ := processNames_error_imp hr
          exact absurd ⟨n, hn, he⟩ hfn
        | ok xs =>
          obtain ⟨msg, hmsg, n, hn, hc⟩ := processFields_err_of_bad htail
          refine ⟨msg, by rw [processFields, hr, hmsg], n, ?_, hc⟩
          rw [badExportedNames]
          exact List.mem_append_right _ hn
    · have htail : badExportedNames fs ≠ [] := by
        rw [badExportedNames, if_neg hft] at h
        simpa using h
      cases hr : processNames f f.names with
      | error e => exact absurd (processNames_error_imp hr).1 hft
      | ok xs =>
        obtain ⟨msg, hmsg, n, hn, hc⟩ := processFields_err_of_bad htail
        refine ⟨msg, by rw [processFields, hr, hmsg], n, ?_, hc⟩
        rw [badExportedNames]
        exact List.mem_append_right _ hn

theorem processFields_error_imp :
    ∀ {fs : List Field} {msg : String}, processFields fs = Except.error msg →
      badExportedNames fs ≠ []
  | [], msg, h => by cases h
  | f :: fs, msg, h => by
    rw [processFields] at h
    cases hr : processNames f f.names with
    | error e =>
      obtain ⟨hb, n, hn, he⟩ := processNames_error_imp hr
      rw [badExportedNames, if_pos hb]
      intro hc
      have hnil := (List.append_eq_nil.mp hc).1
      have : n ∈ f.names.filter (fun n => isExported n) := List.mem_filter.mpr ⟨hn, he⟩
      rw [hnil] at this
      cases this
    | ok xs =>
      rw [hr] at h
      cases hf : processFields fs with
      | error e =>
        have htail := processFields_error_imp hf
        rw [badExportedNames]
        intro hc
        exact htail (List.append_eq_nil.mp hc).2
      | ok ys => rw [hf] at h; exact absurd h (by simp)

theorem parseStruct_err_of_bad {name : String} {fields : List Field} {pkg : String}
    (h : badExportedNames fields ≠ []) :
    ∃ msg, parseStruct name fields pkg = Except.error msg ∧
      ∃ n ∈ badExportedNames fields, errorNames n msg := by
  obtain ⟨msg, hmsg, hrest⟩ := processFields_err_of_bad h
  exact ⟨msg, by rw [parseStruct, hmsg], hrest⟩

theorem parseStruct_error_imp {name : String} {fields : List Field} {pkg msg : String}
    (h : parseStruct name fields pkg = Except.error msg) : badExportedNames fields ≠ [] := by
  rw [parseStruct] at h
  cases hf : processFields fields with
  | error e => exact processFields_error_imp hf
  | ok fis => rw [hf] at h; exact absurd h (by simp)

theorem parseStruct_ok_name {name : String} {fields : List Field} {pkg : String}
    {si : StructInfo} (h : parseStruct name fields pkg = Except.ok si) : si.Name = name := by
  rw [parseStruct] at h
  cases hf : processFields fields with
  | error e => rw [hf] at h; exact absurd h (by simp)
  | ok fis => rw [hf] at h; cases h; rfl

theorem processFields_ok_names :
    ∀ {fs : List Field} {l : List FieldInfo}, processFields fs = Except.ok l →
      l.map (fun fi => fi.Name) = exportedNames fs
  | [], l, h => by cases h; rfl
  | f :: fs, l, h => by
    rw [processFields] at h
    cases hr : processNames f f.names with
    | error e => rw [hr] at h; exact absurd h (by simp)
    | ok xs =>
      rw [hr] at h
      cases hf : processFields fs with
      | error e => rw [hf] at h; exact absurd h (by simp)
      | ok ys =>
        rw [hf] at h
        cases h
        rw [List.map_append, processNames_ok_names hr, processFields_ok_names hf]
        rfl

theorem parseSpecs_ok_names {doc : List String} {pkg : String} :
    ∀ {specs : List TypeSpec} {l : List StructInfo}, parseSpecs doc pkg specs = Except.ok l →
      l.map (fun si => si.Name) = structSpecNames doc specs
  | [], l, h => by cases h; rfl
  | ts :: rest, l, h => by
    simp only [parseSpecs] at h
    cases hts : ts.type with
    | structType fields =>
      simp only [hts] at h
      by_cases ha : hasAnnot doc = true
      · rw [if_pos ha] at h
        cases hps : parseStruct ts.name fields pkg with
        | error e => rw [hps] at h; exact absurd h (by simp)
        | ok si =>
          rw [hps] at h
          cases hrest : parseSpecs doc pkg rest with
          | error e => rw [hrest] at h; exact absurd h (by simp)
          | ok sis =>
            rw [hrest] at h
            cases h
            rw [List.map_cons, parseStruct_ok_name hps, parseSpecs_ok_names hrest]
            simp [structSpecNames, hts, ha]
      · rw [if_neg ha] at h
        rw [parseSpecs_ok_names h]
        simp [structSpecNames, hts, ha]
    | otherType =>
      simp only [hts] at h
      rw [parseSpecs_ok_names h]
      simp [structSpecNames, hts]

theorem parseSpecs_ok_empty {doc : List String} {pkg : String} :
    ∀ {specs : List TypeSpec}, structSpecNames doc specs = [] →
      parseSpecs doc pkg specs = Except.ok []
  | [], _ => rfl
  | ts :: rest, h => by
    cases hts : ts.type with
    | structType fields =>
      simp only [structSpecNames, hts] at h
      by_cases ha : hasAnnot doc = true
      · rw [if_pos ha] at h
        exact absurd h (by simp)
      · rw [if_neg ha] at h
        simp only [List.nil_append] at h
        simp only [parseSpecs, hts, if_neg ha]
        exact parseSpecs_ok_empty h
    | otherType =>
      simp only [structSpecNames, hts, List.nil_append] at h
      simp only [parseSpecs, hts]
      exact parseSpecs_ok_empty h

theorem parseSpecs_error_imp {doc : List String} {pkg : String} :
    ∀ {specs : List TypeSpec} {msg : String}, parseSpecs doc pkg specs = Except.error msg →
      hasAnnot doc = true ∧ specsBadNames specs ≠ []
  | [], msg, h => by cases h
  | ts :: rest, msg, h => by
    simp only [parseSpecs] at h
    cases hts : ts.type with
    | structType fields =>
      simp only [hts] at h
      by_cases ha : hasAnnot doc = true
      · rw [if_pos ha] at h
        cases hps : parseStruct ts.name fields pkg with
        | error e =>
          refine ⟨ha, ?_⟩
          simp only [specsBadNames, hts]
          intro hc
          exact parseStruct_error_imp hps (List.append_eq_nil.mp hc).1
        | ok si =>
          rw [hps] at h
          cases hrest : parseSpecs doc pkg rest with
          | error e =>
            obtain ⟨ha', hbad⟩ := parseSpecs_error_imp hrest
            refine ⟨ha', ?_⟩
            simp only [specsBadNames, hts]
            intro hc
            exact hbad (List.append_eq_nil.mp hc).2
          | ok sis => rw [hrest] at h; exact absurd h (by simp)
      · rw [if_neg ha] at h
        exact absurd (parseSpecs_error_imp h).1 ha
    | otherType =>
      simp only [hts] at h
      obtain ⟨ha', hbad⟩ := parseSpecs_error_imp h
      refine ⟨ha', ?_⟩
      simpa [specsBadNames, hts] using hbad

theorem parseSpecs_err_of_bad {doc : List String} {pkg : String} (ha : hasAnnot doc = true) :
    ∀ {specs : List TypeSpec}, specsBadNames specs ≠ [] →
      ∃ msg, parseSpecs doc pkg specs = Except.error msg ∧
        ∃ n ∈ specsBadNames specs, errorNames n msg
  | [], h => absurd rfl h
  | ts :: rest, h => by
    cases hts : ts.type with
    | structType fields =>
      by_cases hb : badExportedNames fields = []
      · have htail : specsBadNames rest ≠ [] := by
          simp only [specsBadNames, hts, hb, List.nil_append] at h
          exact h
        cases hps : parseStruct ts.name fields pkg with
        | error e => exact absurd hb (parseStruct_error_imp hps)
        | ok si =>
          obtain ⟨msg, hmsg, n, hn, hc⟩ := @parseSpecs_err_of_bad doc pkg ha rest htail
          refine ⟨msg, ?_, n, ?_, hc⟩
          · simp only [parseSpecs, hts, if_pos ha, hps, hmsg]
          · simp only [specsBadNames, hts]
            exact List.mem_append_right _ hn
      · obtain ⟨msg, hmsg, n, hn, hc⟩ := @parseStruct_err_of_bad ts.name fields pkg hb
        refine ⟨"failed to parse struct " ++ ts.name ++ ": " ++ msg, ?_, n, ?_, ?_⟩
        · simp only [parseSpecs, hts, if_pos ha, hmsg]
        · simp only [specsBadNames, hts]
          exact List.mem_append_left _ hn
        · exact ⟨containsSubstr_strL _ _ _ hc.1, containsSubstr_strL _ _ _ hc.2⟩
    | otherType =>
      have htail : specsBadNames rest ≠ [] := by
        simpa [specsBadNames, hts] using h
      obtain ⟨msg, hmsg, n, hn, hc⟩ := @parseSpecs_err_of_bad doc pkg ha rest htail
      refine ⟨msg, ?_, n, ?_, hc⟩
      · simp only [parseSpecs, hts, hmsg]
      · simpa [specsBadNames, hts] using hn

theorem parseDecls_ok_names {pkg : String} :
    ∀ {ds : List Decl} {l : List StructInfo}, parseDecls pkg ds = Except.ok l →
      l.map (fun si => si.Name) = selectedSpecNames ds
  | [], l, h => by cases h; rfl
  | Decl.typeDecl doc specs :: rest, l, h => by
    simp only [parseDecls] at h
    cases hps : parseSpecs doc pkg specs with
    | error e => rw [hps] at h; exact absurd h (by simp)
    | ok xs =>
      rw [hps] at h
      cases hpd : parseDecls pkg rest with
      | error e => rw [hpd] at h; exact absurd h (by simp)
      | ok ys =>
        rw [hpd] at h
        cases h
        rw [List.map_append, parseSpecs_ok_names hps, parseDecls_ok_names hpd]
        rfl
  | Decl.otherDecl :: rest, l, h => by
    simp only [parseDecls] at h
    simp only [selectedSpecNames]
    exact parseDecls_ok_names h

theorem parseDecls_ok_empty {pkg : String} :
    ∀ {ds : List Decl}, selectedSpecNames ds = [] → parseDecls pkg ds = Except.ok []
  | [], _ => rfl
  | Decl.typeDecl doc specs :: rest, h => by
    simp only [selectedSpecNames] at h
    simp [parseDecls, parseSpecs_ok_empty (List.append_eq_nil.mp h).1,
      parseDecls_ok_empty (List.append_eq_nil.mp h).2]
  | Decl.otherDecl :: rest, h => by
    simp only [selectedSpecNames] at h
    simp only [parseDecls]
    exact parseDecls_ok_empty h

theorem parseDecls_err_of_bad {pkg : String} :
    ∀ {ds : List Decl}, fileBadNames ds ≠ [] →
      ∃ msg, parseDecls pkg ds = Except.error msg ∧
        ∃ n ∈ fileBadNames ds, errorNames n msg
  | [], h => absurd rfl h
  | Decl.typeDecl doc specs :: rest, h => by
    by_cases ha : hasAnnot doc = true
    · by_cases hsb : specsBadNames specs = []
      · have htail : fileBadNames rest ≠ [] := by
          simp only [fileBadNames, if_pos ha, hsb, List.nil_append] at h
          exact h
        cases hps : parseSpecs doc pkg specs with
        | error e => exact absurd hsb (parseSpecs_error_imp hps).2
        | ok xs =>
          obtain ⟨msg, hmsg, n, hn, hc⟩ := @parseDecls_err_of_bad pkg rest htail
          refine ⟨msg, ?_, n, ?_, hc⟩
          · simp only [parseDecls, hps, hmsg]
          · simp only [fileBadNames]
            exact List.mem_append_right _ hn
      · obtain ⟨msg, hmsg, n, hn, hc⟩ := @parseSpecs_err_of_bad doc pkg ha specs hsb
        refine ⟨msg, ?_, n, ?_, hc⟩
        · simp only [parseDecls, hmsg]
        · simp only [fileBadNames, if_pos ha]
          exact List.mem_append_left _ hn
    · have htail : fileBadNames rest ≠ [] := by
        simp only [fileBadNames, if_neg ha, List.nil_append] at h
        exact h
      cases hps : parseSpecs doc pkg specs with
      | error e => exact absurd (parseSpecs_error_imp hps).1 ha
      | ok xs =>
        obtain ⟨msg, hmsg, n, hn, hc⟩ := @parseDecls_err_of_bad pkg rest htail
        refine ⟨msg, ?_, n, ?_, hc⟩
        · simp only [parseDecls, hps, hmsg]
        · simp only [fileBadNames, if_neg ha, List.nil_append]
          exact hn
  | Decl.otherDecl :: rest, h => by
    have htail : fileBadNames rest ≠ [] := by
      simpa [fileBadNames] using h
    obtain ⟨msg, hmsg, n, hn, hc⟩ := @parseDecls_err_of_bad pkg rest htail
    refine ⟨msg, ?_, n, ?_, hc⟩
    · simp only [parseDecls, hmsg]
    · simpa [fileBadNames] using hn

/-- C2: whenever some annotated struct of the unit has an exported, named
field whose type shape the resolver rejects, parsing fails for the whole
unit — no descriptors are returned — with an unsupported-type error that
names one such field. -/
theorem c2_unsupported_type_fails (sf : SourceFile) (h : fileBadNames sf.decls ≠ []) :
    ∃ msg, ParseFile sf = Except.error msg ∧ ∃ n ∈ fileBadNames sf.decls, errorNames n msg :=
  parseDecls_err_of_bad h

/-- C2 witness: the concrete unit whose annotated struct has a pointer-typed
exported field Handle fails with an error naming Handle. -/
theorem c2_unsupported_type_fails_witness :
    ∃ msg, ParseFile badTypeFile = Except.error msg ∧
      ∃ n ∈ fileBadNames badTypeFile.decls, errorNames n msg :=
  c2_unsupported_type_fails badTypeFile (by decide)

/-- C3: for every unit whose parse succeeds, the descriptors are exactly the
type specifications whose declaration doc carries the +flags-gen marker and
whose shape is a struct, in declaration order; unmarked or non-struct
declarations yield no descriptor. -/
theorem c3_marker_gating (sf : SourceFile) (l : List StructInfo)
    (h : ParseFile sf = Except.ok l) :
    l.map (fun si => si.Name) = selectedSpecNames sf.decls :=
  parseDecls_ok_names h

/-- C4: for every struct that parses successfully, the descriptor's field
list carries exactly one entry per exported named field, in declaration
order; unexported and nameless (embedded) fields never materialize. -/
theorem c4_exported_fields (name : String) (fields : List Field) (pkg : String)
    (si : StructInfo) (h : parseStruct name fields pkg = Except.ok si) :
    si.Fields.map (fun fi => fi.Name) = exportedNames fields := by
  rw [parseStruct] at h
  cases hf : processFields fields with
  | error e => rw [hf] at h; exact absurd h (by simp)
  | ok fis =>
    rw [hf] at h
    cases h
    exact processFields_ok_names hf

/-- C9: a well-formed unit with no annotated struct parses successfully to
the empty descriptor list; rejecting the empty result is the CLI layer's
behaviour, not the parser's. -/
theorem c9_empty_result_ok (sf : SourceFile) (h : selectedSpecNames sf.decls = []) :
    ParseFile sf = Except.ok [] ∧ runFlagsGenRejectsEmpty [] = true :=
  ⟨parseDecls_ok_empty h, rfl⟩

/-- C9 witness: the concrete unit with an unannotated struct and an annotated
non-struct type parses to the empty list, which only the CLI layer rejects. -/
theorem c9_empty_result_ok_witness :
    ParseFile noMarkerFile = Except.ok [] ∧ runFlagsGenRejectsEmpty [] = true :=
  c9_empty_result_ok noMarkerFile (by decide)

/-- C10: a field declaration listing several identifiers yields one
descriptor per exported identifier, in the listed order, all sharing the
same normalized type, description and default value, and — when the shared
tag supplies an external name — the same derived flag name. -/
theorem c10_shared_declaration (f : Field) (l : List FieldInfo)
    (h : processNames f f.names = Except.ok l) :
    l.map (fun fi => fi.Name) = f.names.filter (fun n => isExported n) ∧
    ∀ a ∈ l, ∀ b ∈ l,
      a.Typ = b.Typ ∧ a.Description = b.Description ∧ a.DefaultValue = b.DefaultValue ∧
      (fieldJSONTag f ≠ "" → a.FlagName = b.FlagName) := by
  refine ⟨processNames_ok_names h, ?_⟩
  intro a ha b hb2
  obtain ⟨nA, fiA, hnA, heA, hpA, rfl⟩ := processNames_mem h a ha
  obtain ⟨nB, fiB, hnB, heB, hpB, rfl⟩ := processNames_mem h b hb2
  cases hpt : parseType f.type with
  | error e => rw [parseField, hpt] at hpA; exact absurd hpA (by simp)
  | ok t =>
    rw [parseField_eq nA f t hpt] at hpA
    rw [parseField_eq nB f t hpt] at hpB
    cases hpA
    cases hpB
    refine ⟨?_, ?_, ?_, ?_⟩
    · rw [(augmentField_parts _).1, (augmentField_parts _).1]
    · rw [(augmentField_parts _).2.1, (augmentField_parts _).2.1]
    · rw [(augmentField_parts _).2.2.1, (augmentField_parts _).2.2.1]
    · intro hj
      rw [(augmentField_parts _).2.2.2, (augmentField_parts _).2.2.2]
      show deriveFlagName nA (fieldJSONTag f) = deriveFlagName nB (fieldJSONTag f)
      rw [deriveFlagName, deriveFlagName, if_pos hj, if_pos hj]

/-- C3 witness: on the concrete mixed unit, the parsed descriptors are exactly
the marked struct Kept. -/
theorem c3_marker_gating_witness :
    gatingResult.map (fun si => si.Name) = selectedSpecNames gatingFile.decls :=
  c3_marker_gating gatingFile gatingResult (by decide)

/-- C4 witness: on the concrete field list with an embedded field, an
unexported field and a multi-identifier declaration, the descriptor holds
exactly the exported names First, Alpha, Gamma in order. -/
theorem c4_exported_fields_witness :
    exclusionStructInfo.Fields.map (fun fi => fi.Name) = exportedNames exclusionFields :=
  c4_exported_fields "Mixed" exclusionFields "main" exclusionStructInfo (by decide)

/-- C10 witness: the concrete shared declaration Alpha, beta, Gamma int
yields descriptors for Alpha and Gamma sharing type, description, default
and flag name. -/
theorem c10_shared_declaration_witness :
    multiNameResult.map (fun fi => fi.Name) =
      multiNameField.names.filter (fun n => isExported n) ∧
    ∀ a ∈ multiNameResult, ∀ b ∈ multiNameResult,
      a.Typ = b.Typ ∧ a.Description = b.Description ∧ a.DefaultValue = b.DefaultValue ∧
      (fieldJSONTag multiNameField ≠ "" → a.FlagName = b.FlagName) :=
  c10_shared_declaration multiNameField multiNameResult (by decide)

end FlagsGen


